import Mathlib

/-!
Verification of the layout engine, character classifier, input validator and
unit-conversion utilities of the character-practice-printer repository.

Numeric quantities that the source computes on JavaScript numbers (millimetre
coordinates, conversion ratios) are embedded as exact rationals; the decimal
constants of the source are written as the corresponding fractions.  Character
sequences are embedded as lists of Lean characters (one entry per Unicode code
point, matching iteration with for..of in the source).
-/

namespace CharacterPracticePrinter

/-! ## Constants (src/constants/layout.ts) -/

/-- A4 page width in millimetres. -/
def A4_WIDTH : ℚ := 210

/-- A4 page height in millimetres. -/
def A4_HEIGHT : ℚ := 297

/-- Top margin in millimetres. -/
def MARGIN_TOP : ℚ := 20

/-- Bottom margin in millimetres. -/
def MARGIN_BOTTOM : ℚ := 20

/-- Left margin in millimetres. -/
def MARGIN_LEFT : ℚ := 15

/-- Right margin in millimetres. -/
def MARGIN_RIGHT : ℚ := 15

/-- Printable width: 210 - 15 - 15 = 180mm. -/
def PRINTABLE_WIDTH : ℚ := A4_WIDTH - MARGIN_LEFT - MARGIN_RIGHT

/-- Printable height: 297 - 20 - 20 = 257mm. -/
def PRINTABLE_HEIGHT : ℚ := A4_HEIGHT - MARGIN_TOP - MARGIN_BOTTOM

/-- Line-height ratio for horizontal writing. -/
def HORIZONTAL_LINE_HEIGHT : ℚ := 15 / 10

/-- Line-height ratio for vertical writing. -/
def VERTICAL_LINE_HEIGHT : ℚ := 12 / 10

/-- Character-spacing ratio. -/
def CHARACTER_SPACING_RATIO : ℚ := 1 / 10

/-- Conversion constant: 1pt = 0.352778mm. -/
def PT_TO_MM : ℚ := 352778 / 1000000

/-- Conversion constant: 1mm = 2.834646pt. -/
def MM_TO_PT : ℚ := 2834646 / 1000000

/-- Conversion constant: 1px = 0.264583mm. -/
def PX_TO_MM : ℚ := 264583 / 1000000

/-- Conversion constant: 1mm = 3.779528px. -/
def MM_TO_PX : ℚ := 3779528 / 1000000

/-! ## Unit conversion (src/utils/layoutUtils.ts) -/

/-- Converts points to millimetres. -/
def ptToMm (pt : ℚ) : ℚ := pt * PT_TO_MM

/-- Converts millimetres to points. -/
def mmToPt (mm : ℚ) : ℚ := mm * MM_TO_PT

/-- Converts pixels to millimetres. -/
def pxToMm (px : ℚ) : ℚ := px * PX_TO_MM

/-- Converts millimetres to pixels. -/
def mmToPx (mm : ℚ) : ℚ := mm * MM_TO_PX

/-! ## Layout maths (src/utils/layoutUtils.ts) -/

/-- Writing direction. -/
inductive WritingDirection where
  | horizontal
  | vertical
deriving DecidableEq, Repr

/-- Physical character size in millimetres. -/
structure CharSize where
  width : ℚ
  height : ℚ
deriving DecidableEq, Repr

/-- Computes character size from a font size in points:
width is 0.9 of the height, height is the point size in millimetres. -/
def calculateCharacterSize (fontSize : ℕ) : CharSize :=
  let fontSizeMm := ptToMm fontSize
  { width := fontSizeMm * (9 / 10), height := fontSizeMm }

/-- Line spacing: height times 1.5 for horizontal writing, width times 1.2 for
vertical writing. -/
def calculateLineSpacing (fontSize : ℕ) (direction : WritingDirection) : ℚ :=
  let charSize := calculateCharacterSize fontSize
  match direction with
  | .horizontal => charSize.height * HORIZONTAL_LINE_HEIGHT
  | .vertical => charSize.width * VERTICAL_LINE_HEIGHT

/-- Character spacing: a tenth of the character width, at least 1mm. -/
def calculateCharacterSpacing (fontSize : ℕ) : ℚ :=
  let charSize := calculateCharacterSize fontSize
  max (charSize.width * CHARACTER_SPACING_RATIO) 1

/-- Characters per line in horizontal mode. -/
def calculateHorizontalCharsPerLine (fontSize : ℕ) : ℕ :=
  let charSize := calculateCharacterSize fontSize
  let charSpacing := calculateCharacterSpacing fontSize
  let totalCharWidth := charSize.width + charSpacing
  (⌊PRINTABLE_WIDTH / totalCharWidth⌋).toNat

/-- Lines per page in horizontal mode. -/
def calculateHorizontalLinesPerPage (fontSize : ℕ) : ℕ :=
  let lineSpacing := calculateLineSpacing fontSize .horizontal
  (⌊PRINTABLE_HEIGHT / lineSpacing⌋).toNat

/-- Characters per line (column) in vertical mode. -/
def calculateVerticalCharsPerLine (fontSize : ℕ) : ℕ :=
  let charSize := calculateCharacterSize fontSize
  let charSpacing := calculateCharacterSpacing fontSize
  let totalCharHeight := charSize.height + charSpacing
  (⌊PRINTABLE_HEIGHT / totalCharHeight⌋).toNat

/-- Lines (columns) per page in vertical mode. -/
def calculateVerticalLinesPerPage (fontSize : ℕ) : ℕ :=
  let lineSpacing := calculateLineSpacing fontSize .vertical
  (⌊PRINTABLE_WIDTH / lineSpacing⌋).toNat

/-- Characters per line for the given direction. -/
def calculateCharsPerLine (fontSize : ℕ) (direction : WritingDirection) : ℕ :=
  match direction with
  | .horizontal => calculateHorizontalCharsPerLine fontSize
  | .vertical => calculateVerticalCharsPerLine fontSize

/-- Lines per page for the given direction. -/
def calculateLinesPerPage (fontSize : ℕ) (direction : WritingDirection) : ℕ :=
  match direction with
  | .horizontal => calculateHorizontalLinesPerPage fontSize
  | .vertical => calculateVerticalLinesPerPage fontSize

/-- Absolute position of a character on the page, in millimetres. -/
structure PointMM where
  x : ℚ
  y : ℚ
deriving DecidableEq, Repr

/-- Character position in horizontal mode: lines stack downward, characters
run rightward. -/
def calculateHorizontalCharPosition (lineIndex charIndex fontSize : ℕ) : PointMM :=
  let charSize := calculateCharacterSize fontSize
  let charSpacing := calculateCharacterSpacing fontSize
  let lineSpacing := calculateLineSpacing fontSize .horizontal
  { x := MARGIN_LEFT + charIndex * (charSize.width + charSpacing)
    y := MARGIN_TOP + lineIndex * lineSpacing }

/-- Character position in vertical mode: columns progress from the right edge
leftward, characters run downward. -/
def calculateVerticalCharPosition (lineIndex charIndex fontSize : ℕ) : PointMM :=
  let charSize := calculateCharacterSize fontSize
  let charSpacing := calculateCharacterSpacing fontSize
  let lineSpacing := calculateLineSpacing fontSize .vertical
  { x := A4_WIDTH - MARGIN_RIGHT - lineIndex * lineSpacing - charSize.width
    y := MARGIN_TOP + charIndex * (charSize.height + charSpacing) }

/-- Character position for the given direction. -/
def calculateCharPosition (lineIndex charIndex fontSize : ℕ)
    (direction : WritingDirection) : PointMM :=
  match direction with
  | .horizontal => calculateHorizontalCharPosition lineIndex charIndex fontSize
  | .vertical => calculateVerticalCharPosition lineIndex charIndex fontSize

/-- Number of pages needed: the ceiling of text length over characters per page. -/
def calculateRequiredPages (textLength fontSize : ℕ) (direction : WritingDirection) : ℕ :=
  let charsPerLine := calculateCharsPerLine fontSize direction
  let linesPerPage := calculateLinesPerPage fontSize direction
  let charsPerPage := charsPerLine * linesPerPage
  (⌈(textLength : ℚ) / (charsPerPage : ℚ)⌉).toNat

/-- Test of the printable-area bounds used by LayoutService.isWithinPrintableArea. -/
def isWithinPrintableArea (x y : ℚ) (fontSize : ℕ) : Prop :=
  let charSize := calculateCharacterSize fontSize
  MARGIN_LEFT ≤ x ∧ MARGIN_TOP ≤ y ∧
    x + charSize.width ≤ A4_WIDTH - MARGIN_RIGHT ∧
    y + charSize.height ≤ A4_HEIGHT - MARGIN_BOTTOM

/-! ## Character classifier (src/services/CharacterAnalyzer.ts) -/

/-- Semantic character categories. -/
inductive CharacterType where
  | hiragana
  | katakana
  | alphabet
  | number
  | symbol
  | mixed
deriving DecidableEq, Repr, Fintype

/-- Classifies a single code point: hiragana, katakana, Latin alphabet, ASCII
digit, otherwise symbol, tested in that order. -/
def detectType (c : Char) : CharacterType :=
  let n := c.toNat
  if 0x3040 ≤ n ∧ n ≤ 0x309F then .hiragana
  else if 0x30A0 ≤ n ∧ n ≤ 0x30FF then .katakana
  else if (0x41 ≤ n ∧ n ≤ 0x5A) ∨ (0x61 ≤ n ∧ n ≤ 0x7A) then .alphabet
  else if 0x30 ≤ n ∧ n ≤ 0x39 then .number
  else .symbol

/-- Association list modelling the insertion-ordered Map of per-type counts. -/
def bumpCount : List (CharacterType × ℕ) → CharacterType → List (CharacterType × ℕ)
  | [], t => [(t, 1)]
  | (t', n) :: rest, t =>
    if t' = t then (t', n + 1) :: rest else (t', n) :: bumpCount rest t

/-- Builds the per-type count map by scanning the text left to right. -/
def countMap (text : List Char) : List (CharacterType × ℕ) :=
  text.foldl (fun m c => bumpCount m (detectType c)) []

/-- Scan of the count map keeping the entry with the strictly greatest count,
starting from count 0 and type symbol. -/
def maxLoop (m : List (CharacterType × ℕ)) : ℕ × CharacterType :=
  m.foldl (fun acc p => if acc.1 < p.2 then (p.2, p.1) else acc) (0, .symbol)

/-- Number of map entries whose type is not symbol and whose count is positive. -/
def significantTypes (m : List (CharacterType × ℕ)) : ℕ :=
  (m.filter (fun p => decide (p.1 ≠ CharacterType.symbol) && decide (0 < p.2))).length

/-- Dominant character category of a whole string: symbol for empty text, mixed
if at least two non-symbol categories occur, otherwise the first category
reaching the maximum count. -/
def detectPrimaryType (text : List Char) : CharacterType :=
  if text.isEmpty then .symbol
  else
    let m := countMap text
    let primary := (maxLoop m).2
    if 1 < significantTypes m then .mixed else primary

/-- Number of characters of the text with the given category. -/
def countType (t : CharacterType) (text : List Char) : ℕ :=
  (text.filter (fun c => decide (detectType c = t))).length

/-- Count stored for a category in the association-list count map (0 when the
category has no entry). -/
def getCount : List (CharacterType × ℕ) → CharacterType → ℕ
  | [], _ => 0
  | p :: rest, t => if p.1 = t then p.2 else getCount rest t

/-! ## Layout engine (src/services/LayoutService.ts) -/

/-- One input character together with its classified category. -/
structure CharacterData where
  char : Char
  type : CharacterType
deriving DecidableEq, Repr

/-- Placed character: the character and its millimetre coordinates. -/
structure CharacterPosition where
  char : Char
  x : ℚ
  y : ℚ
deriving DecidableEq, Repr

/-- One printed line (or column). -/
structure LineLayout where
  characters : List CharacterPosition
deriving DecidableEq, Repr

/-- One physical page. -/
structure PageLayout where
  lines : List LineLayout
deriving DecidableEq, Repr

/-- Result of a layout computation. -/
structure LayoutResult where
  pages : List PageLayout
  totalPages : ℕ
deriving DecidableEq, Repr

/-- Supported page sizes. -/
inductive PaperSize where
  | A4
deriving DecidableEq, Repr

/-- Layout configuration. -/
structure LayoutConfig where
  direction : WritingDirection
  fontSize : ℕ
  showStrokeOrder : Bool
  pageSize : PaperSize
deriving DecidableEq, Repr

/-- Simplified per-character classifier used by textToCharacterData
(LayoutService.determineCharacterType); unlike detectType it also accepts
full-width digits as numbers. -/
def determineCharacterType (c : Char) : CharacterType :=
  let n := c.toNat
  if 0x3040 ≤ n ∧ n ≤ 0x309F then .hiragana
  else if 0x30A0 ≤ n ∧ n ≤ 0x30FF then .katakana
  else if (0x41 ≤ n ∧ n ≤ 0x5A) ∨ (0x61 ≤ n ∧ n ≤ 0x7A) then .alphabet
  else if (0x30 ≤ n ∧ n ≤ 0x39) ∨ (0xFF10 ≤ n ∧ n ≤ 0xFF19) then .number
  else .symbol

/-- Converts a string into the character data consumed by the layout engine. -/
def textToCharacterData (text : List Char) : List CharacterData :=
  text.map (fun c => { char := c, type := determineCharacterType c })

/-- Places the characters of one line: character charIndex within the line gets
the position computed from the line index and the character index. -/
def calculateLineLayout (characters : List CharacterData) (lineIndex fontSize : ℕ)
    (direction : WritingDirection) : LineLayout :=
  { characters := characters.enum.map (fun p =>
      let pos := calculateCharPosition lineIndex p.1 fontSize direction
      { char := p.2.char, x := pos.x, y := pos.y }) }

/-- Builds the lines of one page.  The first argument of the final pair is the
current line index, the second the number of loop iterations left; the loop
stops early once the page characters are exhausted, mirroring the break in
calculatePageLayout. -/
def buildLines (pageCharacters : List CharacterData) (charsPerLine fontSize : ℕ)
    (direction : WritingDirection) : ℕ → ℕ → List LineLayout
  | _, 0 => []
  | lineIndex, n + 1 =>
    if pageCharacters.length ≤ lineIndex * charsPerLine then []
    else
      calculateLineLayout
        ((pageCharacters.drop (lineIndex * charsPerLine)).take charsPerLine)
        lineIndex fontSize direction ::
        buildLines pageCharacters charsPerLine fontSize direction (lineIndex + 1) n

/-- Computes the layout of a single page: the page receives the consecutive
chunk of charsPerLine * linesPerPage characters at its page index, split into
lines of charsPerLine characters each. -/
def calculatePageLayout (characters : List CharacterData)
    (pageIndex charsPerLine linesPerPage fontSize : ℕ)
    (direction : WritingDirection) : PageLayout :=
  let charsPerPage := charsPerLine * linesPerPage
  let pageCharacters := (characters.drop (pageIndex * charsPerPage)).take charsPerPage
  { lines := buildLines pageCharacters charsPerLine fontSize direction 0 linesPerPage }

/-- Computes the full layout: one page per required page index. -/
def calculateLayout (characters : List CharacterData) (config : LayoutConfig) :
    LayoutResult :=
  let charsPerLine := calculateCharsPerLine config.fontSize config.direction
  let linesPerPage := calculateLinesPerPage config.fontSize config.direction
  let totalPages := calculateRequiredPages characters.length config.fontSize config.direction
  { pages := (List.range totalPages).map (fun pageIndex =>
      calculatePageLayout characters pageIndex charsPerLine linesPerPage
        config.fontSize config.direction)
    totalPages := totalPages }

/-- Concatenation of the char fields of a layout result, iterating pages,
lines within each page, and characters within each line in storage order. -/
def layoutChars (result : LayoutResult) : List Char :=
  (result.pages.map (fun page =>
    (page.lines.map (fun line =>
      line.characters.map CharacterPosition.char)).flatten)).flatten

/-! ## Input validator (src/services/InputValidator.ts) -/

/-- Test of the JavaScript whitespace class (backslash-s) by code point. -/
def isJsWhitespace (n : ℕ) : Bool :=
  n = 0x09 || n = 0x0A || n = 0x0B || n = 0x0C || n = 0x0D || n = 0x20 ||
    n = 0xA0 || n = 0x1680 || (0x2000 ≤ n && n ≤ 0x200A) || n = 0x2028 ||
    n = 0x2029 || n = 0x202F || n = 0x205F || n = 0x3000 || n = 0xFEFF

/-- Membership in the character class of VALID_CHARACTER_PATTERN: hiragana,
katakana, Latin letters, ASCII and full-width digits, the Japanese and Latin
punctuation marks listed by ALLOWED_PATTERNS.punctuation together with
whitespace, and kanji. -/
def isAllowedChar (c : Char) : Bool :=
  let n := c.toNat
  (0x3040 ≤ n && n ≤ 0x309F) || (0x30A0 ≤ n && n ≤ 0x30FF) ||
    (0x41 ≤ n && n ≤ 0x5A) || (0x61 ≤ n && n ≤ 0x7A) ||
    (0x30 ≤ n && n ≤ 0x39) || (0xFF10 ≤ n && n ≤ 0xFF19) ||
    n = 0x3001 || n = 0x3002 || n = 0xFF01 || n = 0xFF1F ||
    isJsWhitespace n || n = 0x2E || n = 0x2C || n = 0x21 || n = 0x3F ||
    (0x4E00 ≤ n && n ≤ 0x9FAF)

/-- Maximum character limit of the input validator. -/
def MAX_CHARACTER_LIMIT : ℕ := 500

/-- Model of RegExp.prototype.test on the shared global-flag pattern
VALID_CHARACTER_PATTERN, applied to a one-character string: the first
component is the returned Boolean, the second the lastIndex left behind.
With lastIndex 0 a matching character succeeds and advances lastIndex to 1;
any other state fails and resets lastIndex to 0. -/
def isValidCharacter (lastIndex : ℕ) (c : Char) : Bool × ℕ :=
  if lastIndex = 0 then
    if isAllowedChar c then (true, 1) else (false, 0)
  else (false, 0)

/-- Loop of findInvalidCharacters: walks the text threading the shared regex
state, collecting characters that fail the test and were not collected yet. -/
def findInvalidAux (lastIndex : ℕ) (seen : List Char) : List Char → List Char
  | [] => []
  | c :: rest =>
    let r := isValidCharacter lastIndex c
    if !r.1 && !(seen.contains c) then
      c :: findInvalidAux r.2 (c :: seen) rest
    else findInvalidAux r.2 seen rest

/-- Detection of invalid characters, deduplicated in first-occurrence order,
starting from the initial regex state (lastIndex 0). -/
def findInvalidCharacters (text : List Char) : List Char :=
  findInvalidAux 0 [] text

/-- Keeps only allowed characters and truncates to the maximum length
(InputValidator.filterInput; String.prototype.match with a global flag always
scans from the start of the string, so it is stateless). -/
def filterInput (text : List Char) : List Char :=
  (text.filter isAllowedChar).take MAX_CHARACTER_LIMIT

/-- Test of the control characters removed by sanitizeInput (newline, carriage
return and tab are kept). -/
def isStrippedControl (c : Char) : Bool :=
  let n := c.toNat
  n ≤ 0x08 || n = 0x0B || n = 0x0C || (0x0E ≤ n && n ≤ 0x1F) || n = 0x7F

/-- Removes the control characters matched by the second replace of
sanitizeInput. -/
def stripControlChars (text : List Char) : List Char :=
  text.filter (fun c => !isStrippedControl c)

/-- Scans for the first closing angle bracket and returns the remainder after
it, if any; models the greedy tag pattern of sanitizeInput, which consumes up
to the first closing bracket after an opening one. -/
def findTagEnd : List Char → Option (List Char)
  | [] => none
  | c :: rest => if c = '>' then some rest else findTagEnd rest

/-- Removes markup-like substrings: each opening angle bracket followed
somewhere by a closing one is removed together with everything in between;
an opening bracket with no later closing bracket is kept (the first replace
of sanitizeInput). -/
def stripHtml (l : List Char) : List Char :=
  match l with
  | [] => []
  | c :: rest =>
    if c = '<' then
      match h : findTagEnd rest with
      | some r => stripHtml r
      | none => c :: stripHtml rest
    else c :: stripHtml rest
termination_by l.length
decreasing_by
  · have hlen : ∀ (x : List Char) (y : List Char), findTagEnd x = some y →
        y.length < x.length := by
      intro x
      induction x with
      | nil => intro y hy; simp [findTagEnd] at hy
      | cons a t ih =>
        intro y hy
        by_cases ha : a = '>'
        · simp [findTagEnd, ha] at hy
          simp [← hy]
        · simp [findTagEnd, ha] at hy
          exact Nat.lt_succ_of_lt (ih y hy)
    exact Nat.lt_succ_of_lt (hlen rest r h)
  · simp
  · simp

/-- Sanitization: strip markup, strip control characters, filter to the
allowed set and truncate. -/
def sanitizeInput (text : List Char) : List Char :=
  filterInput (stripControlChars (stripHtml text))

/-! ## Helper lemmas -/

theorem floorNatEq {q : ℚ} {n : ℕ} (h1 : (n : ℚ) ≤ q) (h2 : q < n + 1) :
    (⌊q⌋).toNat = n := by
  have : ⌊q⌋ = (n : ℤ) := by
    rw [Int.floor_eq_iff]
    constructor
    · exact_mod_cast h1
    · exact_mod_cast h2
  rw [this]
  exact Int.toNat_natCast n

theorem ceilNatEq {q : ℚ} {n : ℕ} (h1 : (n : ℚ) - 1 < q) (h2 : q ≤ n) :
    (⌈q⌉).toNat = n := by
  have : ⌈q⌉ = (n : ℤ) := by
    rw [Int.ceil_eq_iff]
    constructor
    · exact_mod_cast h1
    · exact_mod_cast h2
  rw [this]
  exact Int.toNat_natCast n

/-! ## Claim C8: unit-conversion round trips -/

/-- Claim C8, as stated, is false: at v = 1 the pixel round trip misses v by
about 1.143e-6, which exceeds the claimed absolute tolerance of 1e-6. -/
theorem roundTrip_absolute_tolerance_fails :
    ¬ (|mmToPx (pxToMm 1) - 1| ≤ 1 / 1000000 ∧
       |ptToMm (mmToPt 1) - 1| ≤ 1 / 1000000) := by
  intro h
  have h1 := h.1
  rw [show mmToPx (pxToMm 1) - 1 = -(1143176 / 1000000000000) from by
    unfold mmToPx pxToMm MM_TO_PX PX_TO_MM; norm_num] at h1
  rw [abs_neg, abs_of_nonneg (by norm_num)] at h1
  norm_num at h1

/-- Claim C8 (amended): for every rational v at least 0, the conversion round
trips built from the fixed constants satisfy the relative bounds
1.2e-6 times v for the pixel round trip and 1e-6 times v for the point round
trip; the conversions contain no rounding, so the error is exactly linear
in v and an absolute 1e-6 bound cannot hold for all v. -/
theorem roundTrip_relative_tolerance (v : ℚ) (hv : 0 ≤ v) :
    |mmToPx (pxToMm v) - v| ≤ 12 / 10 * (1 / 1000000) * v ∧
    |ptToMm (mmToPt v) - v| ≤ 1 / 1000000 * v := by
  constructor
  · rw [show mmToPx (pxToMm v) - v = -(1143176 / 1000000000000 * v) from by
      unfold mmToPx pxToMm MM_TO_PX PX_TO_MM; ring]
    rw [abs_neg, abs_mul, abs_of_nonneg (by norm_num : (0:ℚ) ≤ 1143176 / 1000000000000),
      abs_of_nonneg hv]
    nlinarith
  · rw [show ptToMm (mmToPt v) - v = 746588 / 1000000000000 * v from by
      unfold ptToMm mmToPt PT_TO_MM MM_TO_PT; ring]
    rw [abs_mul, abs_of_nonneg (by norm_num : (0:ℚ) ≤ 746588 / 1000000000000),
      abs_of_nonneg hv]
    nlinarith

/-- Witness for the amended claim C8 at v = 2. -/
theorem roundTrip_relative_tolerance_witness :
    (0:ℚ) ≤ 2 ∧
    (|mmToPx (pxToMm 2) - 2| ≤ 12 / 10 * (1 / 1000000) * 2 ∧
     |ptToMm (mmToPt 2) - 2| ≤ 1 / 1000000 * 2) :=
  ⟨by norm_num, roundTrip_relative_tolerance 2 (by norm_num)⟩

/-! ## Claims C10 and C6: statefulness of the shared validation regex -/

/-- Claim C10: the shared global-flag regex makes isValidCharacter
non-deterministic across successive calls.  For the allowed character あ, two
consecutive calls starting from the initial state (lastIndex 0) return true
then false, and consequently findInvalidCharacters reports the allowed
character あ as invalid on the input consisting of あ twice. -/
theorem isValidCharacter_not_deterministic :
    isAllowedChar 'あ' = true ∧
    (isValidCharacter 0 'あ').1 = true ∧
    (isValidCharacter (isValidCharacter 0 'あ').2 'あ').1 = false ∧
    findInvalidCharacters ['あ', 'あ'] = ['あ'] := by
  decide

/-- Claim C6 is violated by the code: on the input consisting of the allowed
hiragana あ repeated twice, findInvalidCharacters reports あ — a character
inside the allowed set — as invalid, because the second test call starts at
the stale lastIndex left by the first. -/
theorem findInvalidCharacters_reports_allowed_char :
    findInvalidCharacters ['あ', 'あ'] = ['あ'] ∧ isAllowedChar 'あ' = true := by
  decide

/-! ## Bounds on the geometry quantities -/

theorem charWidth_pos {fs : ℕ} (h1 : 1 ≤ fs) : 0 < (calculateCharacterSize fs).width := by
  unfold calculateCharacterSize ptToMm PT_TO_MM
  have : (1 : ℚ) ≤ (fs : ℚ) := by exact_mod_cast h1
  nlinarith

theorem charWidth_le {fs : ℕ} (h72 : fs ≤ 72) : (calculateCharacterSize fs).width ≤ 23 := by
  unfold calculateCharacterSize ptToMm PT_TO_MM
  have : (fs : ℚ) ≤ 72 := by exact_mod_cast h72
  nlinarith

theorem charHeight_pos {fs : ℕ} (h1 : 1 ≤ fs) : 0 < (calculateCharacterSize fs).height := by
  unfold calculateCharacterSize ptToMm PT_TO_MM
  have : (1 : ℚ) ≤ (fs : ℚ) := by exact_mod_cast h1
  nlinarith

theorem charHeight_le {fs : ℕ} (h72 : fs ≤ 72) : (calculateCharacterSize fs).height ≤ 26 := by
  unfold calculateCharacterSize ptToMm PT_TO_MM
  have : (fs : ℚ) ≤ 72 := by exact_mod_cast h72
  nlinarith

theorem spacing_ge_one (fs : ℕ) : 1 ≤ calculateCharacterSpacing fs :=
  le_max_right _ _

theorem spacing_le {fs : ℕ} (h72 : fs ≤ 72) : calculateCharacterSpacing fs ≤ 3 := by
  unfold calculateCharacterSpacing CHARACTER_SPACING_RATIO
  apply max_le _ (by norm_num)
  have := charWidth_le h72
  nlinarith

theorem one_le_floorNat {A u : ℚ} (hu : 0 < u) (hA : u ≤ A) : 1 ≤ (⌊A / u⌋).toNat := by
  have h1 : (1 : ℤ) ≤ ⌊A / u⌋ := by
    rw [Int.le_floor]
    push_cast
    rw [le_div_iff₀ hu]
    linarith
  omega

theorem mul_le_of_lt_floorNat {A u : ℚ} (hu : 0 < u) {i n : ℕ}
    (hn : n = (⌊A / u⌋).toNat) (hi : i < n) : ((i : ℚ) + 1) * u ≤ A := by
  have hfl : (0 : ℤ) ≤ ⌊A / u⌋ := by omega
  have hq : (n : ℚ) ≤ A / u := by
    have : ((n : ℤ) : ℚ) ≤ ((⌊A / u⌋ : ℤ) : ℚ) := by
      have : (n : ℤ) ≤ ⌊A / u⌋ := by omega
      exact_mod_cast this
    calc (n : ℚ) = ((n : ℤ) : ℚ) := by push_cast; ring
    _ ≤ ((⌊A / u⌋ : ℤ) : ℚ) := this
    _ ≤ A / u := Int.floor_le _
  have hi1 : ((i : ℚ) + 1) ≤ (n : ℚ) := by
    have : i + 1 ≤ n := hi
    exact_mod_cast this
  rw [← le_div_iff₀ hu]
  linarith

theorem calculateCharsPerLine_pos {fs : ℕ} (dir : WritingDirection)
    (h8 : 8 ≤ fs) (h72 : fs ≤ 72) : 1 ≤ calculateCharsPerLine fs dir := by
  have h1 : 1 ≤ fs := by omega
  cases dir with
  | horizontal =>
    unfold calculateCharsPerLine calculateHorizontalCharsPerLine
    apply one_le_floorNat
    · have := charWidth_pos h1
      have := spacing_ge_one fs
      linarith
    · have := charWidth_le h72
      have := spacing_le h72
      unfold PRINTABLE_WIDTH A4_WIDTH MARGIN_LEFT MARGIN_RIGHT
      linarith
  | vertical =>
    unfold calculateCharsPerLine calculateVerticalCharsPerLine
    apply one_le_floorNat
    · have := charHeight_pos h1
      have := spacing_ge_one fs
      linarith
    · have := charHeight_le h72
      have := spacing_le h72
      unfold PRINTABLE_HEIGHT A4_HEIGHT MARGIN_TOP MARGIN_BOTTOM
      linarith

theorem calculateLinesPerPage_pos {fs : ℕ} (dir : WritingDirection)
    (h8 : 8 ≤ fs) (h72 : fs ≤ 72) : 1 ≤ calculateLinesPerPage fs dir := by
  have h1 : 1 ≤ fs := by omega
  cases dir with
  | horizontal =>
    unfold calculateLinesPerPage calculateHorizontalLinesPerPage
      calculateLineSpacing HORIZONTAL_LINE_HEIGHT
    apply one_le_floorNat
    · have := charHeight_pos h1
      nlinarith
    · have := charHeight_le h72
      unfold PRINTABLE_HEIGHT A4_HEIGHT MARGIN_TOP MARGIN_BOTTOM
      nlinarith
  | vertical =>
    unfold calculateLinesPerPage calculateVerticalLinesPerPage
      calculateLineSpacing VERTICAL_LINE_HEIGHT
    apply one_le_floorNat
    · have := charWidth_pos h1
      nlinarith
    · have := charWidth_le h72
      unfold PRINTABLE_WIDTH A4_WIDTH MARGIN_LEFT MARGIN_RIGHT
      nlinarith

/-! ## Claim C3: at least one character per line and one line per page -/

/-- Claim C3: for every integer font size in the validated range 8..72 and
both directions, at least one character fits per line and at least one line
per page, so the characters-per-page product is nonzero and the division in
calculateRequiredPages never divides by zero. -/
theorem charsPerLine_linesPerPage_pos (fs : ℕ) (dir : WritingDirection)
    (h8 : 8 ≤ fs) (h72 : fs ≤ 72) :
    1 ≤ calculateCharsPerLine fs dir ∧ 1 ≤ calculateLinesPerPage fs dir ∧
      calculateCharsPerLine fs dir * calculateLinesPerPage fs dir ≠ 0 := by
  have hc := calculateCharsPerLine_pos dir h8 h72
  have hl := calculateLinesPerPage_pos dir h8 h72
  exact ⟨hc, hl, by positivity⟩

/-- Witness for claim C3 at font size 24, horizontal. -/
theorem charsPerLine_linesPerPage_pos_witness :
    1 ≤ calculateCharsPerLine 24 .horizontal ∧
      1 ≤ calculateLinesPerPage 24 .horizontal ∧
      calculateCharsPerLine 24 .horizontal * calculateLinesPerPage 24 .horizontal ≠ 0 :=
  charsPerLine_linesPerPage_pos 24 .horizontal (by norm_num) (by norm_num)

/-! ## Properties of calculateRequiredPages -/

theorem requiredPages_def (len fs : ℕ) (dir : WritingDirection) :
    calculateRequiredPages len fs dir =
      (⌈(len : ℚ) /
        ((calculateCharsPerLine fs dir * calculateLinesPerPage fs dir : ℕ) : ℚ)⌉).toNat :=
  rfl

theorem requiredPages_zero (fs : ℕ) (dir : WritingDirection) :
    calculateRequiredPages 0 fs dir = 0 := by
  rw [requiredPages_def]
  simp

theorem requiredPages_pos {len fs : ℕ} {dir : WritingDirection}
    (hcpp : 0 < calculateCharsPerLine fs dir * calculateLinesPerPage fs dir)
    (hlen : 0 < len) : 0 < calculateRequiredPages len fs dir := by
  rw [requiredPages_def]
  have hq : (0 : ℚ) < (len : ℚ) /
      ((calculateCharsPerLine fs dir * calculateLinesPerPage fs dir : ℕ) : ℚ) := by
    apply div_pos
    · exact_mod_cast hlen
    · exact_mod_cast hcpp
  have := Int.ceil_pos.mpr hq
  omega

theorem le_requiredPages_mul (len fs : ℕ) (dir : WritingDirection)
    (hcpp : 0 < calculateCharsPerLine fs dir * calculateLinesPerPage fs dir) :
    len ≤ calculateRequiredPages len fs dir *
      (calculateCharsPerLine fs dir * calculateLinesPerPage fs dir) := by
  set cpp := calculateCharsPerLine fs dir * calculateLinesPerPage fs dir with hc
  rw [requiredPages_def, ← hc]
  set q : ℚ := (len : ℚ) / (cpp : ℚ) with hq
  have hq0 : (0 : ℚ) ≤ q := by
    apply div_nonneg (by positivity)
    exact_mod_cast Nat.zero_le cpp
  have hceil0 : (0 : ℤ) ≤ ⌈q⌉ := Int.ceil_nonneg hq0
  have h1 : q ≤ ((⌈q⌉).toNat : ℚ) := by
    have h := Int.le_ceil q
    have hcast : (((⌈q⌉).toNat : ℕ) : ℚ) = ((⌈q⌉ : ℤ) : ℚ) := by
      exact_mod_cast congrArg (fun z : ℤ => (z : ℚ)) (Int.toNat_of_nonneg hceil0)
    rw [hcast]
    exact h
  have hcppq : (0 : ℚ) < (cpp : ℚ) := by exact_mod_cast hcpp
  have h2 : (len : ℚ) ≤ ((⌈q⌉).toNat : ℚ) * (cpp : ℚ) := by
    rw [hq, div_le_iff₀ hcppq] at h1
    exact h1
  exact_mod_cast h2

theorem requiredPages_pred_mul_lt {len fs : ℕ} {dir : WritingDirection}
    (hcpp : 0 < calculateCharsPerLine fs dir * calculateLinesPerPage fs dir)
    (hlen : 0 < len) :
    (calculateRequiredPages len fs dir - 1) *
      (calculateCharsPerLine fs dir * calculateLinesPerPage fs dir) < len := by
  have htp := requiredPages_pos hcpp hlen
  rw [requiredPages_def] at htp ⊢
  set cpp := calculateCharsPerLine fs dir * calculateLinesPerPage fs dir with hc
  set q : ℚ := (len : ℚ) / (cpp : ℚ) with hq
  have hcppq : (0 : ℚ) < (cpp : ℚ) := by exact_mod_cast hcpp
  have hlt : ((⌈q⌉ : ℤ) : ℚ) < q + 1 := Int.ceil_lt_add_one q
  have hceil0 : (0 : ℤ) ≤ ⌈q⌉ := by omega
  have hcast : (((⌈q⌉).toNat : ℕ) : ℚ) = ((⌈q⌉ : ℤ) : ℚ) := by
    exact_mod_cast congrArg (fun z : ℤ => (z : ℚ)) (Int.toNat_of_nonneg hceil0)
  have h2 : (((⌈q⌉).toNat - 1 : ℕ) : ℚ) * (cpp : ℚ) < (len : ℚ) := by
    have htn : 1 ≤ (⌈q⌉).toNat := htp
    have hsub : (((⌈q⌉).toNat - 1 : ℕ) : ℚ) = (((⌈q⌉).toNat : ℕ) : ℚ) - 1 := by
      rw [Nat.cast_sub htn]
      norm_num
    rw [hsub, hcast]
    have hx : ((⌈q⌉ : ℤ) : ℚ) - 1 < q := by linarith
    have hmul : (((⌈q⌉ : ℤ) : ℚ) - 1) * (cpp : ℚ) < q * (cpp : ℚ) :=
      mul_lt_mul_of_pos_right hx hcppq
    have hqc : q * (cpp : ℚ) = (len : ℚ) := by
      rw [hq, div_mul_cancel₀]
      exact ne_of_gt hcppq
    linarith
  exact_mod_cast h2

/-! ## Claim C5: empty input and the zero-pages condition -/

/-- Claim C5: for the empty character sequence and any valid configuration,
calculateLayout returns zero total pages and an empty page list; and for all
font sizes in 8..72 and both directions, calculateRequiredPages is zero
exactly when the text length is zero. -/
theorem calculateLayout_empty (cfg : LayoutConfig)
    (h8 : 8 ≤ cfg.fontSize) (h72 : cfg.fontSize ≤ 72) :
    (calculateLayout [] cfg).totalPages = 0 ∧ (calculateLayout [] cfg).pages = [] ∧
      ∀ len fs : ℕ, ∀ dir : WritingDirection, 8 ≤ fs → fs ≤ 72 →
        (calculateRequiredPages len fs dir = 0 ↔ len = 0) := by
  refine ⟨?_, ?_, ?_⟩
  · simp [calculateLayout, requiredPages_zero]
  · simp [calculateLayout, requiredPages_zero]
  · intro len fs dir hf8 hf72
    constructor
    · intro h0
      by_contra hne
      have hcpp : 0 < calculateCharsPerLine fs dir * calculateLinesPerPage fs dir := by
        have := calculateCharsPerLine_pos dir hf8 hf72
        have := calculateLinesPerPage_pos dir hf8 hf72
        positivity
      have := requiredPages_pos hcpp (by omega : 0 < len)
      omega
    · intro h0
      subst h0
      exact requiredPages_zero fs dir

/-- Witness for claim C5 at a concrete valid configuration and concrete
lengths. -/
theorem calculateLayout_empty_witness :
    (calculateLayout [] ⟨.horizontal, 24, false, .A4⟩).totalPages = 0 ∧
      (calculateLayout [] ⟨.horizontal, 24, false, .A4⟩).pages = [] ∧
      ∀ len fs : ℕ, ∀ dir : WritingDirection, 8 ≤ fs → fs ≤ 72 →
        (calculateRequiredPages len fs dir = 0 ↔ len = 0) :=
  calculateLayout_empty ⟨.horizontal, 24, false, .A4⟩ (by norm_num) (by norm_num)

/-! ## Structural lemmas about the layout -/

theorem buildLines_nilIter (pc : List CharacterData) (cpl fs : ℕ)
    (dir : WritingDirection) (li : ℕ) : buildLines pc cpl fs dir li 0 = [] := rfl

theorem buildLines_iter (pc : List CharacterData) (cpl fs : ℕ)
    (dir : WritingDirection) (li n : ℕ) :
    buildLines pc cpl fs dir li (n + 1) =
      if pc.length ≤ li * cpl then []
      else calculateLineLayout ((pc.drop (li * cpl)).take cpl) li fs dir ::
        buildLines pc cpl fs dir (li + 1) n := rfl

theorem calculateLineLayout_length (cds : List CharacterData) (li fs : ℕ)
    (dir : WritingDirection) :
    (calculateLineLayout cds li fs dir).characters.length = cds.length := by
  simp [calculateLineLayout, List.enum_length]

theorem calculateLineLayout_chars (cds : List CharacterData) (li fs : ℕ)
    (dir : WritingDirection) :
    (calculateLineLayout cds li fs dir).characters.map CharacterPosition.char =
      cds.map CharacterData.char := by
  simp only [calculateLineLayout, List.map_map]
  have hfun : (CharacterPosition.char ∘ fun p : ℕ × CharacterData =>
      let pos := calculateCharPosition li p.1 fs dir
      ({ char := p.2.char, x := pos.x, y := pos.y } : CharacterPosition)) =
      (CharacterData.char ∘ Prod.snd) := rfl
  rw [hfun, ← List.map_map, List.enum_map_snd]

theorem range_chunks_flatten {α : Type} (l : List α) (k : ℕ) :
    ∀ m s : ℕ, ((List.range m).map (fun i => (l.drop ((s + i) * k)).take k)).flatten =
      (l.drop (s * k)).take (m * k) := by
  intro m
  induction m with
  | zero => intro s; simp
  | succ m ih =>
    intro s
    rw [List.range_succ_eq_map]
    simp only [List.map_cons, List.map_map, List.flatten_cons]
    have hfun : ((fun i => (l.drop ((s + i) * k)).take k) ∘ Nat.succ) =
        (fun i => (l.drop (((s + 1) + i) * k)).take k) := by
      funext i
      simp only [Function.comp]
      congr 2
      rw [Nat.succ_eq_add_one]
      ring
    rw [hfun, ih (s + 1)]
    rw [show (m + 1) * k = k + m * k from by ring, List.take_add]
    congr 1
    have h2 : List.drop k (List.drop (s * k) l) = List.drop ((s + 1) * k) l := by
      rw [List.drop_drop]
      congr 1
      ring
    rw [h2]

theorem buildLines_chars (pc : List CharacterData) (cpl fs : ℕ)
    (dir : WritingDirection) :
    ∀ n li : ℕ, pc.length ≤ (li + n) * cpl →
      ((buildLines pc cpl fs dir li n).map
        (fun ln => ln.characters.map CharacterPosition.char)).flatten =
        (pc.drop (li * cpl)).map CharacterData.char := by
  intro n
  induction n with
  | zero =>
    intro li h
    rw [buildLines_nilIter]
    rw [List.drop_eq_nil_of_le (by simpa using h)]
    simp
  | succ n ih =>
    intro li h
    rw [buildLines_iter]
    by_cases hb : pc.length ≤ li * cpl
    · rw [if_pos hb, List.drop_eq_nil_of_le hb]
      simp
    · rw [if_neg hb]
      simp only [List.map_cons, List.flatten_cons]
      rw [calculateLineLayout_chars]
      rw [ih (li + 1) (by
        rw [show (li + 1 + n) * cpl = (li + (n + 1)) * cpl from by ring]
        exact h)]
      rw [← List.map_append]
      congr 1
      have h1 : List.drop ((li + 1) * cpl) pc = List.drop cpl (List.drop (li * cpl) pc) := by
        rw [List.drop_drop]
        congr 1
        ring
      rw [h1, List.take_append_drop]

theorem calculatePageLayout_chars (cds : List CharacterData) (i cpl lpp fs : ℕ)
    (dir : WritingDirection) :
    ((calculatePageLayout cds i cpl lpp fs dir).lines.map
      (fun ln => ln.characters.map CharacterPosition.char)).flatten =
      ((cds.drop (i * (cpl * lpp))).take (cpl * lpp)).map CharacterData.char := by
  simp only [calculatePageLayout]
  have h := buildLines_chars ((cds.drop (i * (cpl * lpp))).take (cpl * lpp)) cpl fs dir
    lpp 0 (by
      rw [zero_add, mul_comm lpp cpl]
      exact List.length_take_le _ _)
  rw [zero_mul, List.drop_zero] at h
  exact h

theorem buildLines_full (pc : List CharacterData) (cpl fs : ℕ)
    (dir : WritingDirection) (hcpl : 0 < cpl) :
    ∀ n li : ℕ, (li + n) * cpl ≤ pc.length →
      ∀ ln ∈ buildLines pc cpl fs dir li n, ln.characters.length = cpl := by
  intro n
  induction n with
  | zero =>
    intro li _ ln hln
    rw [buildLines_nilIter] at hln
    simp at hln
  | succ n ih =>
    intro li h ln hln
    rw [buildLines_iter] at hln
    have hmul : (li + 1) * cpl ≤ (li + (n + 1)) * cpl :=
      Nat.mul_le_mul_right cpl (by omega)
    have hfit : li * cpl + cpl ≤ pc.length := by
      have : (li + 1) * cpl = li * cpl + cpl := by ring
      rw [this] at hmul
      linarith
    have hb : ¬ pc.length ≤ li * cpl := by
      intro hle
      have : 0 < cpl := hcpl
      linarith
    rw [if_neg hb] at hln
    rcases List.mem_cons.mp hln with hhead | htail
    · subst hhead
      rw [calculateLineLayout_length, List.length_take, List.length_drop]
      have : cpl ≤ pc.length - li * cpl := by omega
      omega
    · exact ih (li + 1)
        (by rw [show (li + 1 + n) * cpl = (li + (n + 1)) * cpl from by ring]; exact h)
        ln htail

theorem buildLines_dropLast_full (pc : List CharacterData) (cpl fs : ℕ)
    (dir : WritingDirection) :
    ∀ n li : ℕ, ∀ ln ∈ (buildLines pc cpl fs dir li n).dropLast,
      ln.characters.length = cpl := by
  intro n
  induction n with
  | zero =>
    intro li ln hln
    rw [buildLines_nilIter] at hln
    simp at hln
  | succ n ih =>
    intro li ln hln
    rw [buildLines_iter] at hln
    by_cases hb : pc.length ≤ li * cpl
    · rw [if_pos hb] at hln
      simp at hln
    · rw [if_neg hb] at hln
      by_cases hrest : buildLines pc cpl fs dir (li + 1) n = []
      · rw [hrest] at hln
        simp [List.dropLast] at hln
      · rw [List.dropLast_cons_of_ne_nil hrest] at hln
        rcases List.mem_cons.mp hln with hhead | htail
        · subst hhead
          have hlt : (li + 1) * cpl < pc.length := by
            cases n with
            | zero => exact absurd (buildLines_nilIter pc cpl fs dir (li + 1)) hrest
            | succ m =>
              rw [buildLines_iter] at hrest
              by_cases hb2 : pc.length ≤ (li + 1) * cpl
              · rw [if_pos hb2] at hrest
                exact absurd rfl hrest
              · omega
          rw [calculateLineLayout_length, List.length_take, List.length_drop]
          have : (li + 1) * cpl = li * cpl + cpl := by ring
          omega
        · exact ih (li + 1) ln htail

theorem get_mem_dropLast {α : Type} :
    ∀ (l : List α) (j : ℕ) (hj : j + 1 < l.length),
      l.get ⟨j, Nat.lt_of_succ_lt hj⟩ ∈ l.dropLast := by
  intro l
  induction l with
  | nil => intro j hj; simp at hj
  | cons a t ih =>
    intro j hj
    have ht : t ≠ [] := by
      intro h
      subst h
      simp at hj
    rw [List.dropLast_cons_of_ne_nil ht]
    cases j with
    | zero => simp [List.get]
    | succ j =>
      have hj' : j + 1 < t.length := by
        simpa using hj
      right
      exact ih j hj'

theorem dropLast_map {α β : Type} (f : α → β) :
    ∀ l : List α, (l.map f).dropLast = l.dropLast.map f := by
  intro l
  induction l with
  | nil => simp
  | cons a t ih =>
    cases t with
    | nil => simp
    | cons b t2 =>
      rw [List.map_cons,
        List.dropLast_cons_of_ne_nil (by simp : (List.map f (b :: t2)) ≠ []), ih,
        List.dropLast_cons_of_ne_nil (by simp : (b :: t2) ≠ []), List.map_cons]

theorem calculateLayout_def (cds : List CharacterData) (cfg : LayoutConfig) :
    calculateLayout cds cfg =
      { pages := (List.range
          (calculateRequiredPages cds.length cfg.fontSize cfg.direction)).map
          (fun pageIndex => calculatePageLayout cds pageIndex
            (calculateCharsPerLine cfg.fontSize cfg.direction)
            (calculateLinesPerPage cfg.fontSize cfg.direction)
            cfg.fontSize cfg.direction)
        totalPages := calculateRequiredPages cds.length cfg.fontSize cfg.direction } :=
  rfl

theorem calculatePageLayout_lines (cds : List CharacterData) (i cpl lpp fs : ℕ)
    (dir : WritingDirection) :
    (calculatePageLayout cds i cpl lpp fs dir).lines =
      buildLines ((cds.drop (i * (cpl * lpp))).take (cpl * lpp)) cpl fs dir 0 lpp :=
  rfl

/-! ## Claim C1: layout is a faithful partition of the input -/

/-- Claim C1: for every character sequence and valid configuration,
concatenating the char fields of the layout result in storage order gives
back exactly the input characters; every line of a non-last page is full
(exactly charsPerLine characters), and every line other than the last line of
its page is full — so the only possibly-short line is the last line of the
last page. -/
theorem calculateLayout_partition (cds : List CharacterData) (cfg : LayoutConfig)
    (h8 : 8 ≤ cfg.fontSize) (h72 : cfg.fontSize ≤ 72) :
    layoutChars (calculateLayout cds cfg) = cds.map CharacterData.char ∧
    (∀ p ∈ (calculateLayout cds cfg).pages.dropLast, ∀ ln ∈ p.lines,
      ln.characters.length = calculateCharsPerLine cfg.fontSize cfg.direction) ∧
    (∀ p ∈ (calculateLayout cds cfg).pages, ∀ ln ∈ p.lines.dropLast,
      ln.characters.length = calculateCharsPerLine cfg.fontSize cfg.direction) := by
  have hcpl := calculateCharsPerLine_pos cfg.direction h8 h72
  have hlpp := calculateLinesPerPage_pos cfg.direction h8 h72
  have hcpp : 0 < calculateCharsPerLine cfg.fontSize cfg.direction *
      calculateLinesPerPage cfg.fontSize cfg.direction := by positivity
  refine ⟨?_, ?_, ?_⟩
  · rw [calculateLayout_def]
    unfold layoutChars
    simp only [List.map_map]
    have hfg : ((fun page : PageLayout =>
        (page.lines.map (fun line =>
          line.characters.map CharacterPosition.char)).flatten) ∘
        (fun pageIndex => calculatePageLayout cds pageIndex
          (calculateCharsPerLine cfg.fontSize cfg.direction)
          (calculateLinesPerPage cfg.fontSize cfg.direction)
          cfg.fontSize cfg.direction)) =
        (fun i => ((cds.drop (i * (calculateCharsPerLine cfg.fontSize cfg.direction *
          calculateLinesPerPage cfg.fontSize cfg.direction))).take
          (calculateCharsPerLine cfg.fontSize cfg.direction *
            calculateLinesPerPage cfg.fontSize cfg.direction)).map
          CharacterData.char) := by
      funext i
      exact calculatePageLayout_chars cds i _ _ _ _
    rw [hfg]
    rw [show (fun i => ((cds.drop (i * (calculateCharsPerLine cfg.fontSize cfg.direction *
        calculateLinesPerPage cfg.fontSize cfg.direction))).take
        (calculateCharsPerLine cfg.fontSize cfg.direction *
          calculateLinesPerPage cfg.fontSize cfg.direction)).map CharacterData.char) =
        (List.map CharacterData.char ∘
          (fun i => (cds.drop (i * (calculateCharsPerLine cfg.fontSize cfg.direction *
            calculateLinesPerPage cfg.fontSize cfg.direction))).take
            (calculateCharsPerLine cfg.fontSize cfg.direction *
              calculateLinesPerPage cfg.fontSize cfg.direction))) from rfl]
    rw [← List.map_map, ← List.map_flatten]
    have hchunks := range_chunks_flatten cds
      (calculateCharsPerLine cfg.fontSize cfg.direction *
        calculateLinesPerPage cfg.fontSize cfg.direction)
      (calculateRequiredPages cds.length cfg.fontSize cfg.direction) 0
    simp only [zero_add, zero_mul, List.drop_zero] at hchunks
    rw [hchunks]
    congr 1
    apply List.take_of_length_le
    exact le_requiredPages_mul cds.length cfg.fontSize cfg.direction hcpp
  · intro p hp ln hln
    rw [calculateLayout_def] at hp
    simp only at hp
    rw [dropLast_map, List.dropLast_eq_take, List.length_range, List.take_range] at hp
    rcases List.mem_map.mp hp with ⟨i, hi, rfl⟩
    rw [List.mem_range] at hi
    have hitp : i + 1 ≤ calculateRequiredPages cds.length cfg.fontSize cfg.direction - 1 := by
      omega
    have hlen0 : 0 < cds.length := by
      by_contra hz
      have hz0 : cds.length = 0 := by omega
      rw [hz0, requiredPages_zero] at hi
      omega
    have hfit : (i + 1) * (calculateCharsPerLine cfg.fontSize cfg.direction *
        calculateLinesPerPage cfg.fontSize cfg.direction) ≤ cds.length := by
      have h1 := requiredPages_pred_mul_lt hcpp hlen0
      have h2 : (i + 1) * (calculateCharsPerLine cfg.fontSize cfg.direction *
          calculateLinesPerPage cfg.fontSize cfg.direction) ≤
          (calculateRequiredPages cds.length cfg.fontSize cfg.direction - 1) *
          (calculateCharsPerLine cfg.fontSize cfg.direction *
            calculateLinesPerPage cfg.fontSize cfg.direction) :=
        Nat.mul_le_mul_right _ hitp
      linarith
    rw [calculatePageLayout_lines] at hln
    have hpclen : ((cds.drop (i * (calculateCharsPerLine cfg.fontSize cfg.direction *
        calculateLinesPerPage cfg.fontSize cfg.direction))).take
        (calculateCharsPerLine cfg.fontSize cfg.direction *
          calculateLinesPerPage cfg.fontSize cfg.direction)).length =
        calculateCharsPerLine cfg.fontSize cfg.direction *
          calculateLinesPerPage cfg.fontSize cfg.direction := by
      rw [List.length_take, List.length_drop]
      have hx : (i + 1) * (calculateCharsPerLine cfg.fontSize cfg.direction *
          calculateLinesPerPage cfg.fontSize cfg.direction) =
          i * (calculateCharsPerLine cfg.fontSize cfg.direction *
            calculateLinesPerPage cfg.fontSize cfg.direction) +
          calculateCharsPerLine cfg.fontSize cfg.direction *
            calculateLinesPerPage cfg.fontSize cfg.direction := by ring
      rw [hx] at hfit
      omega
    apply buildLines_full _ _ _ _ hcpl
      (calculateLinesPerPage cfg.fontSize cfg.direction) 0 _ ln hln
    rw [hpclen, zero_add, mul_comm]
  · intro p hp ln hln
    rw [calculateLayout_def] at hp
    simp only at hp
    rcases List.mem_map.mp hp with ⟨i, _, rfl⟩
    rw [calculatePageLayout_lines] at hln
    exact buildLines_dropLast_full _ _ _ _ _ _ ln hln

/-- Witness for claim C1 at a concrete three-character input, font size 24,
horizontal. -/
theorem calculateLayout_partition_witness :
    layoutChars (calculateLayout (textToCharacterData ['あ', 'い', 'う'])
      ⟨.horizontal, 24, false, .A4⟩) =
      (textToCharacterData ['あ', 'い', 'う']).map CharacterData.char ∧
    (∀ p ∈ (calculateLayout (textToCharacterData ['あ', 'い', 'う'])
        ⟨.horizontal, 24, false, .A4⟩).pages.dropLast, ∀ ln ∈ p.lines,
      ln.characters.length = calculateCharsPerLine 24 .horizontal) ∧
    (∀ p ∈ (calculateLayout (textToCharacterData ['あ', 'い', 'う'])
        ⟨.horizontal, 24, false, .A4⟩).pages, ∀ ln ∈ p.lines.dropLast,
      ln.characters.length = calculateCharsPerLine 24 .horizontal) :=
  calculateLayout_partition (textToCharacterData ['あ', 'い', 'う'])
    ⟨.horizontal, 24, false, .A4⟩ (by norm_num) (by norm_num)

/-! ## Claim C2: all placed characters stay inside the printable area -/

theorem buildLines_mem (pc : List CharacterData) (cpl fs : ℕ) (dir : WritingDirection) :
    ∀ n li0 : ℕ, ∀ ln ∈ buildLines pc cpl fs dir li0 n,
      ∃ li : ℕ, li < li0 + n ∧
        ln = calculateLineLayout ((pc.drop (li * cpl)).take cpl) li fs dir := by
  intro n
  induction n with
  | zero =>
    intro li0 ln hln
    rw [buildLines_nilIter] at hln
    simp at hln
  | succ n ih =>
    intro li0 ln hln
    rw [buildLines_iter] at hln
    by_cases hb : pc.length ≤ li0 * cpl
    · rw [if_pos hb] at hln
      simp at hln
    · rw [if_neg hb] at hln
      rcases List.mem_cons.mp hln with hhead | htail
      · exact ⟨li0, by omega, hhead⟩
      · rcases ih (li0 + 1) ln htail with ⟨li, hli, heq⟩
        exact ⟨li, by omega, heq⟩

theorem calculateLineLayout_mem (cds : List CharacterData) (li fs : ℕ)
    (dir : WritingDirection) :
    ∀ cp ∈ (calculateLineLayout cds li fs dir).characters,
      ∃ ci : ℕ, ci < cds.length ∧
        cp.x = (calculateCharPosition li ci fs dir).x ∧
        cp.y = (calculateCharPosition li ci fs dir).y := by
  intro cp hcp
  simp only [calculateLineLayout] at hcp
  rcases List.mem_map.mp hcp with ⟨p, hpmem, rfl⟩
  obtain ⟨i, a⟩ := p
  have h := List.mem_enumFrom hpmem
  exact ⟨i, by simpa using h.2.1, rfl, rfl⟩

theorem charPosition_within {fs : ℕ} (dir : WritingDirection)
    (h8 : 8 ≤ fs) (h72 : fs ≤ 72) {li ci : ℕ}
    (hli : li < calculateLinesPerPage fs dir)
    (hci : ci < calculateCharsPerLine fs dir) :
    isWithinPrintableArea (calculateCharPosition li ci fs dir).x
      (calculateCharPosition li ci fs dir).y fs := by
  have h1 : 1 ≤ fs := by omega
  have hw0 : 0 < (calculateCharacterSize fs).width := charWidth_pos h1
  have hh0 : 0 < (calculateCharacterSize fs).height := charHeight_pos h1
  have hsp1 : 1 ≤ calculateCharacterSpacing fs := spacing_ge_one fs
  have hci0 : (0 : ℚ) ≤ (ci : ℚ) := Nat.cast_nonneg ci
  have hli0 : (0 : ℚ) ≤ (li : ℚ) := Nat.cast_nonneg li
  have hPW : PRINTABLE_WIDTH = 180 := by
    norm_num [PRINTABLE_WIDTH, A4_WIDTH, MARGIN_LEFT, MARGIN_RIGHT]
  have hPH : PRINTABLE_HEIGHT = 257 := by
    norm_num [PRINTABLE_HEIGHT, A4_HEIGHT, MARGIN_TOP, MARGIN_BOTTOM]
  cases dir with
  | horizontal =>
    have hciu : ((ci : ℚ) + 1) *
        ((calculateCharacterSize fs).width + calculateCharacterSpacing fs) ≤ 180 := by
      have h := @mul_le_of_lt_floorNat PRINTABLE_WIDTH
        ((calculateCharacterSize fs).width + calculateCharacterSpacing fs)
        (by linarith) ci (calculateCharsPerLine fs .horizontal) rfl hci
      rw [hPW] at h
      exact h
    have hlil : ((li : ℚ) + 1) * calculateLineSpacing fs .horizontal ≤ 257 := by
      have hls0 : 0 < calculateLineSpacing fs .horizontal := by
        unfold calculateLineSpacing HORIZONTAL_LINE_HEIGHT
        nlinarith
      have h := @mul_le_of_lt_floorNat PRINTABLE_HEIGHT
        (calculateLineSpacing fs .horizontal)
        hls0 li (calculateLinesPerPage fs .horizontal) rfl hli
      rw [hPH] at h
      exact h
    have hls_eq : calculateLineSpacing fs .horizontal =
        (calculateCharacterSize fs).height * (15 / 10) := rfl
    simp only [calculateCharPosition, calculateHorizontalCharPosition,
      isWithinPrintableArea, MARGIN_LEFT, MARGIN_TOP, MARGIN_RIGHT, MARGIN_BOTTOM,
      A4_WIDTH, A4_HEIGHT]
    rw [hls_eq] at hlil
    refine ⟨?_, ?_, ?_, ?_⟩
    · nlinarith
    · nlinarith
    · nlinarith
    · nlinarith
  | vertical =>
    have hciu : ((ci : ℚ) + 1) *
        ((calculateCharacterSize fs).height + calculateCharacterSpacing fs) ≤ 257 := by
      have h := @mul_le_of_lt_floorNat PRINTABLE_HEIGHT
        ((calculateCharacterSize fs).height + calculateCharacterSpacing fs)
        (by linarith) ci (calculateCharsPerLine fs .vertical) rfl hci
      rw [hPH] at h
      exact h
    have hlil : ((li : ℚ) + 1) * calculateLineSpacing fs .vertical ≤ 180 := by
      have hls0 : 0 < calculateLineSpacing fs .vertical := by
        unfold calculateLineSpacing VERTICAL_LINE_HEIGHT
        nlinarith
      have h := @mul_le_of_lt_floorNat PRINTABLE_WIDTH
        (calculateLineSpacing fs .vertical)
        hls0 li (calculateLinesPerPage fs .vertical) rfl hli
      rw [hPW] at h
      exact h
    have hls_eq : calculateLineSpacing fs .vertical =
        (calculateCharacterSize fs).width * (12 / 10) := rfl
    simp only [calculateCharPosition, calculateVerticalCharPosition,
      isWithinPrintableArea, MARGIN_LEFT, MARGIN_TOP, MARGIN_RIGHT, MARGIN_BOTTOM,
      A4_WIDTH, A4_HEIGHT]
    rw [hls_eq] at hlil
    refine ⟨?_, ?_, ?_, ?_⟩
    · nlinarith
    · nlinarith
    · nlinarith
    · nlinarith

/-- Claim C2: every character position produced by calculateLayout from a
valid configuration lies inside the printable area: the x coordinate is at
least the left margin, x plus the character width stays within the right
margin, and similarly for y between the top and bottom margins. -/
theorem calculateLayout_within_printable (cds : List CharacterData)
    (cfg : LayoutConfig) (h8 : 8 ≤ cfg.fontSize) (h72 : cfg.fontSize ≤ 72) :
    ∀ page ∈ (calculateLayout cds cfg).pages, ∀ ln ∈ page.lines,
      ∀ cp ∈ ln.characters, isWithinPrintableArea cp.x cp.y cfg.fontSize := by
  intro page hpage ln hln cp hcp
  rw [calculateLayout_def] at hpage
  simp only at hpage
  rcases List.mem_map.mp hpage with ⟨i, _, rfl⟩
  rw [calculatePageLayout_lines] at hln
  rcases buildLines_mem _ _ _ _ _ _ ln hln with ⟨li, hli, rfl⟩
  rcases calculateLineLayout_mem _ _ _ _ cp hcp with ⟨ci, hci, hx, hy⟩
  have hlim : li < calculateLinesPerPage cfg.fontSize cfg.direction := by
    simpa using hli
  have hcim : ci < calculateCharsPerLine cfg.fontSize cfg.direction :=
    lt_of_lt_of_le hci (List.length_take_le _ _)
  rw [hx, hy]
  exact charPosition_within cfg.direction h8 h72 hlim hcim

/-- Witness for claim C2 at a concrete input and configuration. -/
theorem calculateLayout_within_printable_witness :
    (8 ≤ 24 ∧ 24 ≤ 72) ∧
    ∀ page ∈ (calculateLayout (textToCharacterData ['あ', 'い'])
      ⟨.vertical, 24, false, .A4⟩).pages, ∀ ln ∈ page.lines,
      ∀ cp ∈ ln.characters, isWithinPrintableArea cp.x cp.y 24 :=
  ⟨⟨by norm_num, by norm_num⟩,
    calculateLayout_within_printable (textToCharacterData ['あ', 'い'])
      ⟨.vertical, 24, false, .A4⟩ (by norm_num) (by norm_num)⟩

/-! ## Claim C4: vertical-mode scenario with two characters -/

theorem buildLines_single_line (pc : List CharacterData) (cpl fs n : ℕ)
    (dir : WritingDirection) (h0 : 0 < pc.length) (h1 : pc.length ≤ cpl)
    (hn : 2 ≤ n) : buildLines pc cpl fs dir 0 n = [calculateLineLayout pc 0 fs dir] := by
  obtain ⟨m, rfl⟩ : ∃ m, n = m + 2 := ⟨n - 2, by omega⟩
  rw [show m + 2 = (m + 1) + 1 from rfl, buildLines_iter]
  rw [if_neg (by omega)]
  rw [zero_mul, List.drop_zero, List.take_of_length_le h1]
  congr 1
  rw [buildLines_iter]
  rw [if_pos (by omega)]

theorem calculatePageLayout_small (cds : List CharacterData) (cpl lpp fs : ℕ)
    (dir : WritingDirection) (h0 : 0 < cds.length) (h1 : cds.length ≤ cpl)
    (h2 : 2 ≤ lpp) (hcl : cds.length ≤ cpl * lpp) :
    calculatePageLayout cds 0 cpl lpp fs dir =
      { lines := [calculateLineLayout cds 0 fs dir] } := by
  simp only [calculatePageLayout]
  rw [zero_mul, List.drop_zero, List.take_of_length_le hcl]
  rw [buildLines_single_line cds cpl fs lpp dir h0 h1 h2]

theorem spacing_at_24 : calculateCharacterSpacing 24 = 1 := by
  unfold calculateCharacterSpacing calculateCharacterSize ptToMm PT_TO_MM
    CHARACTER_SPACING_RATIO
  rw [max_eq_right (by norm_num)]

theorem charHeight_at_24 : (calculateCharacterSize 24).height = 8466672 / 1000000 := by
  unfold calculateCharacterSize ptToMm PT_TO_MM
  norm_num

theorem charWidth_at_24 : (calculateCharacterSize 24).width = 76200048 / 10000000 := by
  unfold calculateCharacterSize ptToMm PT_TO_MM
  norm_num

theorem charsPerLine_at_24_vertical : calculateCharsPerLine 24 .vertical = 27 := by
  rw [show calculateCharsPerLine 24 .vertical =
    (⌊PRINTABLE_HEIGHT /
      ((calculateCharacterSize 24).height + calculateCharacterSpacing 24)⌋).toNat from rfl]
  rw [charHeight_at_24, spacing_at_24]
  apply floorNatEq
  · norm_num [PRINTABLE_HEIGHT, A4_HEIGHT, MARGIN_TOP, MARGIN_BOTTOM]
  · norm_num [PRINTABLE_HEIGHT, A4_HEIGHT, MARGIN_TOP, MARGIN_BOTTOM]

theorem linesPerPage_at_24_vertical : calculateLinesPerPage 24 .vertical = 19 := by
  rw [show calculateLinesPerPage 24 .vertical =
    (⌊PRINTABLE_WIDTH / ((calculateCharacterSize 24).width * VERTICAL_LINE_HEIGHT)⌋).toNat
      from rfl]
  rw [charWidth_at_24]
  apply floorNatEq
  · norm_num [PRINTABLE_WIDTH, A4_WIDTH, MARGIN_LEFT, MARGIN_RIGHT, VERTICAL_LINE_HEIGHT]
  · norm_num [PRINTABLE_WIDTH, A4_WIDTH, MARGIN_LEFT, MARGIN_RIGHT, VERTICAL_LINE_HEIGHT]

/-- Claim C4: for the two-character input あい, direction vertical, font size
24, both characters land in the single line (column) with index 0: their x
coordinates are equal to pageWidth minus right margin minus character width
(the rightmost column) and their y coordinates grow strictly with the
character index following topMargin + charIndex times (charHeight + spacing);
in general the vertical position formula is x = pageWidth - rightMargin -
lineIndex * lineSpacing - charWidth. -/
theorem vertical_two_char_scenario :
    calculateLayout (textToCharacterData ['あ', 'い']) ⟨.vertical, 24, false, .A4⟩ =
      { pages := [{ lines := [{ characters := [
          { char := 'あ',
            x := A4_WIDTH - MARGIN_RIGHT - (calculateCharacterSize 24).width,
            y := MARGIN_TOP },
          { char := 'い',
            x := A4_WIDTH - MARGIN_RIGHT - (calculateCharacterSize 24).width,
            y := MARGIN_TOP +
              ((calculateCharacterSize 24).height + calculateCharacterSpacing 24) }] }] }],
        totalPages := 1 } ∧
    (∀ li ci fs : ℕ, calculateCharPosition li ci fs .vertical =
      { x := A4_WIDTH - MARGIN_RIGHT - li * calculateLineSpacing fs .vertical -
          (calculateCharacterSize fs).width,
        y := MARGIN_TOP +
          ci * ((calculateCharacterSize fs).height + calculateCharacterSpacing fs) }) ∧
    MARGIN_TOP < MARGIN_TOP +
      ((calculateCharacterSize 24).height + calculateCharacterSpacing 24) := by
  have hcds : textToCharacterData ['あ', 'い'] =
      [⟨'あ', .hiragana⟩, ⟨'い', .hiragana⟩] := by decide
  have htp : calculateRequiredPages 2 24 .vertical = 1 := by
    rw [requiredPages_def, charsPerLine_at_24_vertical, linesPerPage_at_24_vertical]
    apply ceilNatEq
    · norm_num
    · norm_num
  refine ⟨?_, ?_, ?_⟩
  · rw [calculateLayout_def, hcds]
    dsimp only
    rw [charsPerLine_at_24_vertical, linesPerPage_at_24_vertical,
      show ([(⟨'あ', .hiragana⟩ : CharacterData), ⟨'い', .hiragana⟩]).length = 2 from rfl,
      htp]
    rw [show List.range 1 = [0] from by decide, List.map_cons, List.map_nil]
    rw [calculatePageLayout_small _ _ _ _ _ (by norm_num) (by norm_num) (by norm_num)
      (by norm_num)]
    simp only [calculateLineLayout, List.enum, List.enumFrom, List.map_cons, List.map_nil,
      calculateCharPosition, calculateVerticalCharPosition]
    norm_num
  · intro li ci fs
    rfl
  · have hh := @charHeight_pos 24 (by norm_num)
    have hs := spacing_ge_one 24
    linarith

/-! ## Claim C7: sanitizeInput is idempotent -/

theorem stripHtml_nil : stripHtml [] = [] := by
  rw [stripHtml]

theorem stripHtml_cons_ne {c : Char} (rest : List Char) (h : c ≠ '<') :
    stripHtml (c :: rest) = c :: stripHtml rest := by
  rw [stripHtml]
  simp [h]

theorem stripHtml_of_not_mem : ∀ {l : List Char}, '<' ∉ l → stripHtml l = l := by
  intro l
  induction l with
  | nil => intro _; exact stripHtml_nil
  | cons c rest ih =>
    intro h
    have hc : c ≠ '<' := by
      intro heq
      subst heq
      exact h (List.mem_cons_self _ _)
    rw [stripHtml_cons_ne rest hc, ih (fun hm => h (List.mem_cons_of_mem c hm))]

/-- Claim C7: sanitizeInput is idempotent — applying it twice yields the same
result as applying it once, for every input. -/
theorem sanitizeInput_idempotent (text : List Char) :
    sanitizeInput (sanitizeInput text) = sanitizeInput text := by
  have hall : ∀ c ∈ sanitizeInput text, isAllowedChar c = true := by
    intro c hc
    unfold sanitizeInput filterInput at hc
    exact (List.mem_filter.mp (List.mem_of_mem_take hc)).2
  have hnolt : '<' ∉ sanitizeInput text := by
    intro hmem
    have h := hall '<' hmem
    have : isAllowedChar '<' = false := by decide
    rw [this] at h
    exact Bool.false_ne_true h
  have hnoctl : ∀ c ∈ sanitizeInput text, isStrippedControl c = false := by
    intro c hc
    unfold sanitizeInput filterInput at hc
    have hc2 := List.mem_of_mem_take hc
    have hc3 := (List.mem_filter.mp hc2).1
    unfold stripControlChars at hc3
    have h := (List.mem_filter.mp hc3).2
    simpa using h
  have hlen : (sanitizeInput text).length ≤ MAX_CHARACTER_LIMIT := by
    unfold sanitizeInput filterInput
    exact List.length_take_le _ _
  conv_lhs => rw [sanitizeInput]
  rw [stripHtml_of_not_mem hnolt]
  rw [show stripControlChars (sanitizeInput text) = sanitizeInput text from
    List.filter_eq_self.mpr (by
      intro c hc
      rw [hnoctl c hc]
      rfl)]
  rw [filterInput]
  rw [List.filter_eq_self.mpr hall]
  exact List.take_of_length_le hlen

/-! ## Claim C9: behaviour of detectPrimaryType -/

theorem getCount_bumpCount_self (m : List (CharacterType × ℕ)) (t : CharacterType) :
    getCount (bumpCount m t) t = getCount m t + 1 := by
  induction m with
  | nil => simp [bumpCount, getCount]
  | cons p rest ih =>
    obtain ⟨t', n⟩ := p
    by_cases h : t' = t
    · subst h
      simp [bumpCount, getCount]
    · simp [bumpCount, getCount, h, ih]

theorem getCount_bumpCount_ne (m : List (CharacterType × ℕ)) {t t' : CharacterType}
    (h : t' ≠ t) : getCount (bumpCount m t) t' = getCount m t' := by
  induction m with
  | nil =>
    have hne : t ≠ t' := fun he => h he.symm
    simp [bumpCount, getCount, hne]
  | cons p rest ih =>
    obtain ⟨a, n⟩ := p
    by_cases ha : a = t
    · subst ha
      have hne : a ≠ t' := fun he => h he.symm
      simp [bumpCount, getCount, hne]
    · simp only [bumpCount, if_neg ha]
      by_cases hat : a = t'
      · simp [getCount, hat]
      · simp [getCount, hat, ih]

theorem mem_keys_bumpCount (m : List (CharacterType × ℕ)) (t t' : CharacterType) :
    t' ∈ (bumpCount m t).map Prod.fst ↔ t' ∈ m.map Prod.fst ∨ t' = t := by
  induction m with
  | nil => simp [bumpCount]
  | cons p rest ih =>
    obtain ⟨a, n⟩ := p
    by_cases ha : a = t
    · subst ha
      simp [bumpCount]
      tauto
    · simp only [bumpCount, if_neg ha, List.map_cons, List.mem_cons]
      rw [ih]
      tauto

theorem nodup_keys_bumpCount (m : List (CharacterType × ℕ)) (t : CharacterType)
    (h : (m.map Prod.fst).Nodup) : ((bumpCount m t).map Prod.fst).Nodup := by
  induction m with
  | nil => simp [bumpCount]
  | cons p rest ih =>
    obtain ⟨a, n⟩ := p
    rw [List.map_cons, List.nodup_cons] at h
    by_cases ha : a = t
    · subst ha
      simpa [bumpCount, List.nodup_cons] using h
    · simp only [bumpCount, if_neg ha, List.map_cons, List.nodup_cons]
      refine ⟨?_, ih h.2⟩
      rw [mem_keys_bumpCount]
      push_neg
      exact ⟨h.1, ha⟩

theorem getCount_countMap_aux :
    ∀ (text : List Char) (m : List (CharacterType × ℕ)) (t : CharacterType),
      getCount (text.foldl (fun m c => bumpCount m (detectType c)) m) t =
        getCount m t + countType t text := by
  intro text
  induction text with
  | nil => intro m t; simp [countType]
  | cons c rest ih =>
    intro m t
    rw [List.foldl_cons, ih]
    by_cases h : detectType c = t
    · rw [h, getCount_bumpCount_self]
      simp only [countType, List.filter_cons, h]
      simp
      omega
    · rw [getCount_bumpCount_ne m (fun he => h he.symm)]
      simp only [countType, List.filter_cons]
      rw [if_neg (by simpa using h)]

theorem mem_keys_countMap_aux :
    ∀ (text : List Char) (m : List (CharacterType × ℕ)) (t : CharacterType),
      (t ∈ ((text.foldl (fun m c => bumpCount m (detectType c)) m).map Prod.fst) ↔
        t ∈ m.map Prod.fst ∨ ∃ c ∈ text, detectType c = t) := by
  intro text
  induction text with
  | nil => intro m t; simp
  | cons c rest ih =>
    intro m t
    rw [List.foldl_cons, ih, mem_keys_bumpCount]
    constructor
    · rintro (⟨h | h⟩ | ⟨d, hd, hdt⟩)
      · exact Or.inl h
      · exact Or.inr ⟨c, by simp, h.symm⟩
      · exact Or.inr ⟨d, by simp [hd], hdt⟩
    · rintro (h | ⟨d, hd, hdt⟩)
      · exact Or.inl (Or.inl h)
      · rcases List.mem_cons.mp hd with hdc | hdr
        · subst hdc
          exact Or.inl (Or.inr hdt.symm)
        · exact Or.inr ⟨d, hdr, hdt⟩

theorem nodup_keys_countMap_aux :
    ∀ (text : List Char) (m : List (CharacterType × ℕ)),
      (m.map Prod.fst).Nodup →
      ((text.foldl (fun m c => bumpCount m (detectType c)) m).map Prod.fst).Nodup := by
  intro text
  induction text with
  | nil => intro m h; simpa using h
  | cons c rest ih =>
    intro m h
    rw [List.foldl_cons]
    exact ih _ (nodup_keys_bumpCount m (detectType c) h)

theorem getCount_countMap (text : List Char) (t : CharacterType) :
    getCount (countMap text) t = countType t text := by
  rw [countMap, getCount_countMap_aux]
  simp [getCount]

theorem mem_keys_countMap (text : List Char) (t : CharacterType) :
    t ∈ (countMap text).map Prod.fst ↔ ∃ c ∈ text, detectType c = t := by
  rw [countMap, mem_keys_countMap_aux]
  simp

theorem nodup_keys_countMap (text : List Char) :
    ((countMap text).map Prod.fst).Nodup := by
  rw [countMap]
  exact nodup_keys_countMap_aux text [] (by simp)

theorem countType_pos_iff (text : List Char) (t : CharacterType) :
    0 < countType t text ↔ ∃ c ∈ text, detectType c = t := by
  rw [countType, List.length_pos_iff_ne_nil]
  constructor
  · intro h
    rcases List.exists_mem_of_ne_nil _ h with ⟨c, hc⟩
    have := List.mem_filter.mp hc
    exact ⟨c, this.1, by simpa using this.2⟩
  · rintro ⟨c, hc, hct⟩
    intro hnil
    have : c ∈ List.filter (fun c => decide (detectType c = t)) text :=
      List.mem_filter.mpr ⟨hc, by simpa using hct⟩
    rw [hnil] at this
    simp at this

theorem pair_eq_of_mem {m : List (CharacterType × ℕ)}
    (hnd : (m.map Prod.fst).Nodup) {p : CharacterType × ℕ} (hp : p ∈ m) :
    p.2 = getCount m p.1 := by
  induction m with
  | nil => simp at hp
  | cons q rest ih =>
    rw [List.map_cons, List.nodup_cons] at hnd
    rcases List.mem_cons.mp hp with hq | hr
    · subst hq
      simp [getCount]
    · have hne : q.1 ≠ p.1 := by
        intro he
        exact hnd.1 (he ▸ List.mem_map.mpr ⟨p, hr, rfl⟩)
      rw [getCount, if_neg hne]
      exact ih hnd.2 hr

theorem pair_mem_of_key {m : List (CharacterType × ℕ)} {t : CharacterType}
    (ht : t ∈ m.map Prod.fst) : (t, getCount m t) ∈ m := by
  induction m with
  | nil => simp at ht
  | cons p rest ih =>
    rw [List.map_cons, List.mem_cons] at ht
    by_cases hp : p.1 = t
    · rw [getCount, if_pos hp]
      have hpe : (t, p.2) = p := by
        obtain ⟨a, b⟩ := p
        simp only at hp
        rw [hp]
      rw [hpe]
      exact List.mem_cons_self _ _
    · rw [getCount, if_neg hp]
      right
      rcases ht with he | hr
      · exact absurd he.symm hp
      · exact ih hr

theorem one_lt_length_of_two_mem {α : Type} {l : List α} {a b : α}
    (ha : a ∈ l) (hb : b ∈ l) (hne : a ≠ b) : 1 < l.length := by
  cases l with
  | nil => simp at ha
  | cons x t =>
    cases t with
    | nil =>
      simp at ha hb
      exact absurd (ha.trans hb.symm) hne
    | cons y u => simp

theorem significantTypes_gt_one_iff (text : List Char) :
    1 < significantTypes (countMap text) ↔
      ∃ t1 t2 : CharacterType, t1 ≠ t2 ∧ t1 ≠ CharacterType.symbol ∧
        t2 ≠ CharacterType.symbol ∧ 0 < countType t1 text ∧ 0 < countType t2 text := by
  unfold significantTypes
  constructor
  · intro h
    have hnd : (((countMap text).filter
        (fun p => decide (p.1 ≠ CharacterType.symbol) && decide (0 < p.2))).map
          Prod.fst).Nodup :=
      ((List.filter_sublist _).map Prod.fst).nodup (nodup_keys_countMap text)
    rcases hF : (countMap text).filter
        (fun p => decide (p.1 ≠ CharacterType.symbol) && decide (0 < p.2)) with
      _ | ⟨p, F1⟩
    · rw [hF] at h
      simp at h
    rcases F1 with _ | ⟨q, F2⟩
    · rw [hF] at h
      simp at h
    have hpmem : p ∈ (countMap text).filter
        (fun p => decide (p.1 ≠ CharacterType.symbol) && decide (0 < p.2)) := by
      rw [hF]; simp
    have hqmem : q ∈ (countMap text).filter
        (fun p => decide (p.1 ≠ CharacterType.symbol) && decide (0 < p.2)) := by
      rw [hF]; simp
    have hpm := List.mem_of_mem_filter hpmem
    have hqm := List.mem_of_mem_filter hqmem
    have hpf := List.of_mem_filter hpmem
    have hqf := List.of_mem_filter hqmem
    rw [Bool.and_eq_true, decide_eq_true_eq, decide_eq_true_eq] at hpf hqf
    have hpq : p.1 ≠ q.1 := by
      rw [hF] at hnd
      simp only [List.map_cons, List.nodup_cons, List.mem_cons] at hnd
      exact fun he => hnd.1 (Or.inl he)
    refine ⟨p.1, q.1, hpq, hpf.1, hqf.1, ?_, ?_⟩
    · have := pair_eq_of_mem (nodup_keys_countMap text) hpm
      rw [this, getCount_countMap] at hpf
      exact hpf.2
    · have := pair_eq_of_mem (nodup_keys_countMap text) hqm
      rw [this, getCount_countMap] at hqf
      exact hqf.2
  · rintro ⟨t1, t2, h12, h1s, h2s, h1c, h2c⟩
    have hk1 : t1 ∈ (countMap text).map Prod.fst :=
      (mem_keys_countMap text t1).mpr ((countType_pos_iff text t1).mp h1c)
    have hk2 : t2 ∈ (countMap text).map Prod.fst :=
      (mem_keys_countMap text t2).mpr ((countType_pos_iff text t2).mp h2c)
    have hp1 := pair_mem_of_key hk1
    have hp2 := pair_mem_of_key hk2
    have hf1 : (t1, getCount (countMap text) t1) ∈ (countMap text).filter
        (fun p => decide (p.1 ≠ CharacterType.symbol) && decide (0 < p.2)) := by
      apply List.mem_filter.mpr
      refine ⟨hp1, ?_⟩
      rw [Bool.and_eq_true, decide_eq_true_eq, decide_eq_true_eq]
      exact ⟨h1s, by rw [getCount_countMap]; exact h1c⟩
    have hf2 : (t2, getCount (countMap text) t2) ∈ (countMap text).filter
        (fun p => decide (p.1 ≠ CharacterType.symbol) && decide (0 < p.2)) := by
      apply List.mem_filter.mpr
      refine ⟨hp2, ?_⟩
      rw [Bool.and_eq_true, decide_eq_true_eq, decide_eq_true_eq]
      exact ⟨h2s, by rw [getCount_countMap]; exact h2c⟩
    exact one_lt_length_of_two_mem hf1 hf2 (by
      intro he
      exact h12 (congrArg Prod.fst he))

theorem maxLoop_shape (m : List (CharacterType × ℕ)) (T : CharacterType)
    (hnd : (m.map Prod.fst).Nodup)
    (hkeys : ∀ p ∈ m, p.1 = T ∨ p.1 = CharacterType.symbol)
    (hTk : T ∈ m.map Prod.fst)
    (hvals : ∀ p ∈ m, p.1 = T → 0 < p.2)
    (hmaj : ∀ p ∈ m, ∀ q ∈ m, p.1 = CharacterType.symbol → q.1 = T → p.2 < q.2) :
    (maxLoop m).2 = T := by
  rcases m with _ | ⟨p, rest⟩
  · simp at hTk
  rcases rest with _ | ⟨q, rest2⟩
  · have hpT : p.1 = T := by
      simp only [List.map_cons, List.map_nil, List.mem_cons, List.not_mem_nil,
        or_false] at hTk
      exact hTk.symm
    have hp2 : 0 < p.2 := hvals p (by simp) hpT
    simp only [maxLoop, List.foldl_cons, List.foldl_nil]
    rw [if_pos hp2]
    exact hpT
  rcases rest2 with _ | ⟨r, rest3⟩
  · have hpq : p.1 ≠ q.1 := by
      simp only [List.map_cons, List.nodup_cons, List.mem_cons] at hnd
      exact fun he => hnd.1 (Or.inl he)
    rcases hkeys p (by simp) with hpT | hpS
    · have hqS : q.1 = CharacterType.symbol := by
        rcases hkeys q (by simp) with hqT | hqS
        · exact absurd (hpT.trans hqT.symm) hpq
        · exact hqS
      have hp2 : 0 < p.2 := hvals p (by simp) hpT
      have hqp : q.2 < p.2 := hmaj q (by simp) p (by simp) hqS hpT
      simp only [maxLoop, List.foldl_cons, List.foldl_nil]
      rw [if_pos hp2, if_neg (by omega)]
      exact hpT
    · have hqT : q.1 = T := by
        rcases hkeys q (by simp) with hqT | hqS
        · exact hqT
        · exact absurd (hpS.trans hqS.symm) hpq
      have hpq2 : p.2 < q.2 := hmaj p (by simp) q (by simp) hpS hqT
      simp only [maxLoop, List.foldl_cons, List.foldl_nil]
      by_cases hp2 : 0 < p.2
      · rw [if_pos hp2, if_pos (by omega)]
        exact hqT
      · rw [if_neg hp2, if_pos (by omega)]
        exact hqT
  · exfalso
    simp only [List.map_cons, List.nodup_cons, List.mem_cons, List.mem_map] at hnd
    have hpq : p.1 ≠ q.1 := fun he => hnd.1 (Or.inl he)
    have hpr : p.1 ≠ r.1 := fun he => hnd.1 (Or.inr (Or.inl he))
    have hqr : q.1 ≠ r.1 := fun he => hnd.2.1 (Or.inl he)
    rcases hkeys p (by simp) with hp | hp <;>
      rcases hkeys q (by simp) with hq | hq <;>
      rcases hkeys r (by simp) with hr | hr <;>
      simp_all

theorem detectPrimaryType_def (text : List Char) :
    detectPrimaryType text =
      if text.isEmpty then CharacterType.symbol
      else if 1 < significantTypes (countMap text) then CharacterType.mixed
      else (maxLoop (countMap text)).2 := rfl

/-- Claim C9 (amended): detectPrimaryType returns symbol for the empty
string; when exactly one non-symbol category occurs and its count strictly
exceeds the symbol count, it returns that category; it returns mixed whenever
two or more non-symbol categories occur; and on あいうえお it returns
hiragana.  (A tie in maximum count between the single non-symbol category and
symbol is resolved to the category reaching the maximum first in insertion
order, not to mixed — only multiple non-symbol categories yield mixed.) -/
theorem detectPrimaryType_spec (text : List Char) :
    (text = [] → detectPrimaryType text = CharacterType.symbol) ∧
    (∀ T : CharacterType, T ≠ CharacterType.symbol → 0 < countType T text →
      (∀ t : CharacterType, t ≠ T → t ≠ CharacterType.symbol → countType t text = 0) →
      countType CharacterType.symbol text < countType T text →
      detectPrimaryType text = T) ∧
    ((∃ t1 t2 : CharacterType, t1 ≠ t2 ∧ t1 ≠ CharacterType.symbol ∧
        t2 ≠ CharacterType.symbol ∧ 0 < countType t1 text ∧ 0 < countType t2 text) →
      detectPrimaryType text = CharacterType.mixed) ∧
    detectPrimaryType ['あ', 'い', 'う', 'え', 'お'] = CharacterType.hiragana := by
  refine ⟨?_, ?_, ?_, by decide⟩
  · intro h
    subst h
    rfl
  · intro T hTs hpos hothers hmaj
    have hne : text ≠ [] := by
      rcases (countType_pos_iff text T).mp hpos with ⟨c, hc, _⟩
      intro h
      rw [h] at hc
      simp at hc
    rw [detectPrimaryType_def]
    rw [if_neg (by simp [List.isEmpty_iff, hne])]
    rw [if_neg (by
      intro hgt
      rcases (significantTypes_gt_one_iff text).mp hgt with
        ⟨t1, t2, h12, h1s, h2s, h1c, h2c⟩
      by_cases ht1 : t1 = T
      · subst ht1
        rw [hothers t2 (fun he => h12 he.symm) h2s] at h2c
        exact absurd h2c (lt_irrefl 0)
      · rw [hothers t1 ht1 h1s] at h1c
        exact absurd h1c (lt_irrefl 0))]
    apply maxLoop_shape (countMap text) T (nodup_keys_countMap text)
    · intro p hp
      by_contra hcon
      push_neg at hcon
      have hk : p.1 ∈ (countMap text).map Prod.fst :=
        List.mem_map.mpr ⟨p, hp, rfl⟩
      have hc : 0 < countType p.1 text :=
        (countType_pos_iff text p.1).mpr ((mem_keys_countMap text p.1).mp hk)
      rw [hothers p.1 hcon.1 hcon.2] at hc
      exact absurd hc (lt_irrefl 0)
    · exact (mem_keys_countMap text T).mpr ((countType_pos_iff text T).mp hpos)
    · intro p hp hpT
      rw [pair_eq_of_mem (nodup_keys_countMap text) hp, hpT, getCount_countMap]
      exact hpos
    · intro p hp q hq hpS hqT
      rw [pair_eq_of_mem (nodup_keys_countMap text) hp, hpS, getCount_countMap,
        pair_eq_of_mem (nodup_keys_countMap text) hq, hqT, getCount_countMap]
      exact hmaj
  · rintro ⟨t1, t2, h12, h1s, h2s, h1c, h2c⟩
    have hne : text ≠ [] := by
      rcases (countType_pos_iff text t1).mp h1c with ⟨c, hc, _⟩
      intro h
      rw [h] at hc
      simp at hc
    rw [detectPrimaryType_def]
    rw [if_neg (by simp [List.isEmpty_iff, hne])]
    rw [if_pos ((significantTypes_gt_one_iff text).mpr
      ⟨t1, t2, h12, h1s, h2s, h1c, h2c⟩)]

/-- Witness for the amended claim C9: on ああ! the single non-symbol category
hiragana holds the strict majority and is returned; on あA two non-symbol
categories occur and mixed is returned. -/
theorem detectPrimaryType_spec_witness :
    detectPrimaryType ['あ', 'あ', '!'] = CharacterType.hiragana ∧
      detectPrimaryType ['あ', 'A'] = CharacterType.mixed := by
  constructor
  · exact (detectPrimaryType_spec ['あ', 'あ', '!']).2.1 CharacterType.hiragana
      (by decide) (by decide) (by decide) (by decide)
  · exact (detectPrimaryType_spec ['あ', 'A']).2.2.1
      ⟨CharacterType.hiragana, CharacterType.alphabet,
        by decide, by decide, by decide, by decide, by decide⟩

/-- Claim C9, as stated, is false on the input あ! — hiragana and symbol
share the maximum count 1, yet the result is hiragana (the first category
reaching the maximum in insertion order), not mixed. -/
theorem detectPrimaryType_tie_not_mixed :
    detectPrimaryType ['あ', '!'] = CharacterType.hiragana ∧
      countType CharacterType.hiragana ['あ', '!'] =
        countType CharacterType.symbol ['あ', '!'] ∧
      CharacterType.hiragana ≠ CharacterType.mixed := by
  decide

end CharacterPracticePrinter
